import Mathlib

/-
  GenMark AI Content Origin Platform - formal model of the Content
  Fingerprint Registry core.

  The authoritative on-chain program (contract.py), the backend bridge
  (algorand.py, main.py) and the hashing module (hashing.py) are present in
  this repository only through their quoted fragments and the implementation
  plans; the frontend pages (Morph.tsx, Verify.tsx, ResultCard.tsx,
  Generate.tsx) are present in full.  Definitions below are translated from
  the quoted contract fragments and the frontend sources where those exist;
  the remaining operations are modelled from the specification, each marked
  in its doc comment.
-/

namespace GenMark

/-- ContentRecord, translated from the contract fragment in the repository
docs: fields creator_name, creator_address, platform, timestamp, asa_id,
flag_count, original_phash, morphed_by.  The spec names map as:
creator_id = creator_name, contributor_id = morphed_by,
ownership_token = asa_id, misuse_count = flag_count,
parent_fingerprint = original_phash (empty string means no parent). -/
structure ContentRecord where
  creator_name : String
  creator_address : String
  platform : String
  timestamp : Nat
  asa_id : Nat
  flag_count : Nat
  original_phash : String
  morphed_by : String
deriving Repr, DecidableEq

/-- The BoxMap registry: pHash to ContentRecord, as an association list
(first binding wins, mirroring key-unique box storage). -/
abbrev Registry := List (String × ContentRecord)

/-- Key-addressed lookup in the registry (the `phash in self.registry` /
`self.registry[phash]` pattern of the contract). -/
def lookupRecord : Registry → String → Option ContentRecord
  | [], _ => none
  | (k, v) :: rest, ph => if k = ph then some v else lookupRecord rest ph

/-- In-place update of the record stored at a key (the
`self.registry[phash].flag_count = ...` pattern of the contract). -/
def updateRecord : Registry → String → ContentRecord → Registry
  | [], _, _ => []
  | (k, v) :: rest, ph, r =>
    if k = ph then (ph, r) :: rest else (k, v) :: updateRecord rest ph r

/-- Flag boxes keyed by (phash, flag_index), mirroring the raw boxes
written at key "flg_" + phash + itob(flag_index). -/
abbrev FlagBoxes := List ((String × Nat) × String)

def lookupFlagBox : FlagBoxes → String → Nat → Option String
  | [], _, _ => none
  | ((k, i), d) :: rest, ph, idx =>
    if k = ph ∧ i = idx then some d else lookupFlagBox rest ph idx

/-- Whole-contract state: registry boxes, flag boxes, global counter. -/
structure ContractState where
  registry : Registry
  flagBoxes : FlagBoxes
  totalRegistrations : Nat
deriving Repr, DecidableEq

inductive FlagError where
  | targetNotRegistered
deriving Repr, DecidableEq

/-- flag_misuse, translated from the contract fragment in the repository
docs: assert the phash is registered (failing otherwise with the
assertion message, modelled as targetNotRegistered), take
flag_index := flag_count, write the flag box, and atomically bump
flag_count to flag_index + 1; returns the assigned index. -/
def flagMisuse (st : ContractState) (ph desc : String) :
    Except FlagError (ContractState × Nat) :=
  match lookupRecord st.registry ph with
  | none => .error .targetNotRegistered
  | some r =>
    let idx := r.flag_count
    .ok ({ st with
            flagBoxes := ((ph, idx), desc) :: st.flagBoxes,
            registry := updateRecord st.registry ph
              { r with flag_count := idx + 1 } }, idx)

/-- get_flag, read-only retrieval of one flag box; none models NotFound. -/
def getFlag (st : ContractState) (ph : String) (idx : Nat) : Option String :=
  lookupFlagBox st.flagBoxes ph idx

/-- Tagged result of a registration, as the spec demands: Created and
AlreadyRegistered are distinct success variants. -/
inductive RegResult where
  | created (r : ContentRecord)
  | alreadyRegistered (r : ContentRecord)
deriving Repr, DecidableEq

/-- Outcome of one orchestrated registration: the tagged result, the
resulting ledger state, and the cumulative count of ledger writes issued. -/
structure OrchOutcome where
  result : RegResult
  state : ContractState
  ledgerWrites : Nat
deriving Repr, DecidableEq

/-- Modelled from the spec: the Registration Orchestrator (backend
/api/register plus contract register_content; main.py is absent from the
sources).  Steps: look up the fingerprint (existing record short-circuits
to AlreadyRegistered before any write); otherwise resolve the optional
parent (resolving parent propagates its creator_name and records the
claimed creator as morphed_by; an unresolvable parent degrades to a fresh
original); then issue the single ledger write.  The minted ownership token
(asa_id) is modelled as one plus the number of writes issued so far. -/
def registerOrch (st : ContractState) (writes : Nat)
    (ph claimedCreator platform : String) (parentPh : Option String)
    (now : Nat) : OrchOutcome :=
  match lookupRecord st.registry ph with
  | some r => ⟨.alreadyRegistered r, st, writes⟩
  | none =>
    let fields : String × String × String :=
      match parentPh with
      | some p =>
        match lookupRecord st.registry p with
        | some pr => (pr.creator_name, claimedCreator, p)
        | none => (claimedCreator, "", "")
      | none => (claimedCreator, "", "")
    let newRec : ContentRecord :=
      { creator_name := fields.1
        creator_address := ""
        platform := platform
        timestamp := now
        asa_id := writes + 1
        flag_count := 0
        original_phash := fields.2.2
        morphed_by := fields.2.1 }
    ⟨.created newRec,
      { st with registry := (ph, newRec) :: st.registry,
                totalRegistrations := st.totalRegistrations + 1 },
      writes + 1⟩

/-- One step of a provenance chain, as produced by the backend walker
(docstring in the repository docs: each step carries phash, creator_name,
morphed_by, timestamp, is_original). -/
structure ChainStep where
  phash : String
  creator_name : String
  morphed_by : String
  timestamp : Nat
  is_original : Bool
deriving Repr, DecidableEq

inductive ChainError where
  | corruptChain
deriving Repr, DecidableEq

/-- Chain step built from a registry record; a record with an empty
original_phash is an original. -/
def mkStep (ph : String) (r : ContentRecord) : ChainStep :=
  ⟨ph, r.creator_name, r.morphed_by, r.timestamp, decide (r.original_phash = "")⟩

/-- Modelled from the spec: the Chain Builder walk (main.py's
build_provenance_chain_from_blockchain is absent from the sources; its
docstring says it walks original_phash links and returns an oldest-first
list).  The walk reads the current record, follows its parent link,
detects a repeated fingerprint via the visited list and fails with
corruptChain rather than looping, is bounded by the fuel, and builds the
sequence oldest-first by appending the current step after its ancestors. -/
def walkUp (reg : Registry) : Nat → List String → String →
    Except ChainError (List ChainStep)
  | 0, _, _ => .error .corruptChain
  | fuel + 1, visited, ph =>
    if ph ∈ visited then .error .corruptChain
    else
      match lookupRecord reg ph with
      | none => .error .corruptChain
      | some r =>
        if r.original_phash = "" then .ok [mkStep ph r]
        else
          match walkUp reg fuel (ph :: visited) r.original_phash with
          | .error e => .error e
          | .ok rest => .ok (rest ++ [mkStep ph r])

/-- Reference bound on the walk length from the spec: 64 hops. -/
def CHAIN_HOP_BOUND : Nat := 64

/-- Chain Builder entry point: walk up from the target with the reference
hop bound and no fingerprints visited yet. -/
def buildChain (reg : Registry) (ph : String) :
    Except ChainError (List ChainStep) :=
  walkUp reg CHAIN_HOP_BOUND [] ph

/-- Adjacency relation of a well-formed chain: the later step's record is
registered and names the earlier step's fingerprint as its parent. -/
def ChildOf (reg : Registry) (a b : ChainStep) : Prop :=
  ∃ rb, lookupRecord reg b.phash = some rb ∧ rb.original_phash = a.phash

/-- Creator coherence of a registry: every registered derivative carries
the same creator_name as its resolvable parent.  This is the invariant the
registration flow maintains, since a derivative is always written with its
parent's creator_name. -/
def creatorCoherent (reg : Registry) : Prop :=
  ∀ ph r, lookupRecord reg ph = some r → r.original_phash ≠ "" →
    ∀ pr, lookupRecord reg r.original_phash = some pr →
      r.creator_name = pr.creator_name

/-- Modelled from the spec: the Misuse Log append operation (backend
/api/flag is absent from the sources).  It reads the target record first
and fails with targetNotRegistered before any ledger flag append when the
fingerprint has no record; otherwise it performs the single ledger
flag_misuse call.  The second component counts the ledger flag calls
issued. -/
def appendFlagOrch (st : ContractState) (ph desc : String) :
    (Except FlagError (ContractState × Nat)) × Nat :=
  match lookupRecord st.registry ph with
  | none => (.error .targetNotRegistered, 0)
  | some _ => (flagMisuse st ph desc, 1)

/-- Well-formedness of the flag boxes: a flag box exists only at an index
below its target record's flag_count, so indices are gapless and
ledger-assigned. -/
def flagsWellFormed (st : ContractState) : Prop :=
  ∀ ph idx d, lookupFlagBox st.flagBoxes ph idx = some d →
    ∃ r, lookupRecord st.registry ph = some r ∧ idx < r.flag_count

/-- Bit-count of the low w bits of a natural number, structurally
recursive on the width so that it evaluates by kernel reduction. -/
def popcountBelow : Nat → Nat → Nat
  | 0, _ => 0
  | w + 1, n => n % 2 + popcountBelow w (n / 2)

/-- Modelled from the spec: the Similarity Matcher distance (main.py's
hamming_distance is absent from the sources): the Hamming distance of two
64-bit fingerprints, the popcount of their xor. -/
def hamming_distance (a b : Nat) : Nat :=
  popcountBelow 64 (a ^^^ b)

/-- Classification of a fingerprint comparison. -/
inductive MatchClass where
  | identical
  | nearDuplicate
  | unrelated
deriving Repr, DecidableEq

/-- Modelled from the spec: the Similarity Matcher classification policy,
configurable by threshold: distance 0 is identical content, a positive
distance at most the threshold is a near-duplicate / derivative candidate,
anything above the threshold is unrelated. -/
def classify (threshold d : Nat) : MatchClass :=
  if d = 0 then .identical
  else if d ≤ threshold then .nearDuplicate
  else .unrelated

/-- Reference near-duplicate threshold for the same-image-re-encoded use,
from the repository docs: 4 bits. -/
def reencodeThreshold : Nat := 4

/-- Reference near-duplicate threshold for the same-image-edited use
(alteration detection in /api/register), from the repository docs: 10
bits. -/
def editedThreshold : Nat := 10

/-- Insertion into a sorted list of coefficient values. -/
def insertSorted (x : Rat) : List Rat → List Rat
  | [] => [x]
  | y :: ys => if x ≤ y then x :: y :: ys else y :: insertSorted x ys

/-- Insertion sort of coefficient values (any sort; only the order type
matters for the median). -/
def sortRats : List Rat → List Rat
  | [] => []
  | x :: xs => insertSorted x (sortRats xs)

/-- Median of the 64 coefficients of the low-frequency block, as
numpy.median computes it for 64 values: the mean of the 32nd and 33rd
values in sorted order. -/
def medianOf64 (xs : List Rat) : Rat :=
  ((sortRats xs).getD 31 0 + (sortRats xs).getD 32 0) / 2

/-- Packing of the binarized bits, row-major, first bit most significant. -/
def packBits : List Bool → Nat
  | [] => 0
  | b :: bs => b.toNat * 2 ^ bs.length + packBits bs

/-- Binarization step of the pHash pipeline as the repository docs state
it: each coefficient becomes 1 if above the median, 0 if below (strict
comparison). -/
def phashBitsCode (block : List Rat) : List Bool :=
  block.map (fun v => decide (medianOf64 block < v))

/-- The 64-bit fingerprint packed from the code's binarization. -/
def phashFromBlock (block : List Rat) : Nat :=
  packBits (phashBitsCode block)

/-- Binarization step as the spec words it: 1 if the coefficient is
greater than or equal to the median, else 0.  Kept separate so it can be
compared with the code's strict rule. -/
def phashBitsSpecGE (block : List Rat) : List Bool :=
  block.map (fun v => decide (medianOf64 block ≤ v))

/-- The 64-bit fingerprint packed from the spec's binarization. -/
def phashFromBlockSpecGE (block : List Rat) : Nat :=
  packBits (phashBitsSpecGE block)

/-- Modelled from the spec: the full Fingerprint Engine (hashing.py is
absent from the sources).  The decode / normalize / resize-to-32x32 / 2-D
frequency transform / lowest-frequency-8x8-block stages are the image
library frontend, abstracted as a pure function from content bytes to an
optional coefficient block (none models UnsupportedContent); the median,
binarization and packing stages are the concrete functions above. -/
def fingerprintWith (frontend : List Nat → Option (List Rat))
    (bytes : List Nat) : Option Nat :=
  (frontend bytes).map phashFromBlock

/-- One in-flight duplicate registration request in the concurrency model
of the documented /api/register flow: it first performs the existence
check against the registrations mirror, remembers what it saw, and then
acts on that stale answer. -/
structure DupRequest where
  checked : Bool
  sawExisting : Bool
  result : Option Nat
deriving Repr, DecidableEq

/-- Shared state for concurrent duplicate registrations of one
fingerprint: the single record slot (its minted ownership token), the
count of ledger writes issued, and the per-request states. -/
structure DupSystem where
  record : Option Nat
  ledgerWrites : Nat
  reqs : List DupRequest
deriving Repr, DecidableEq

/-- Initial state for n identical concurrent registration requests of one
unregistered fingerprint. -/
def initDupSystem (n : Nat) : DupSystem :=
  ⟨none, 0, List.replicate n ⟨false, false, none⟩⟩

/-- Modelled from the repository docs: one atomic step of request i of the
documented /api/register flow (backend main.py is absent from the
sources; the implementation plan describes the duplicate handling as a
MongoDB-first existence check followed by the on-chain write, and lists no
per-fingerprint mutex or single-flight mechanism).  The first step records
the existence-check answer; the second step acts on it: a request that saw
the record returns it, a request that saw nothing issues the ledger write,
where the contract's own existence short-circuit returns the already
stored record instead of creating a second one. -/
def dupStep (s : DupSystem) (i : Nat) : DupSystem :=
  match s.reqs.get? i with
  | none => s
  | some req =>
    if req.checked = false then
      { s with reqs :=
          s.reqs.set i ({ req with checked := true, sawExisting := s.record.isSome }) }
    else
      match req.result with
      | some _ => s
      | none =>
        if req.sawExisting then
          match s.record with
          | some tok => { s with reqs := s.reqs.set i ({ req with result := some tok }) }
          | none => s
        else
          match s.record with
          | some tok =>
            { s with ledgerWrites := s.ledgerWrites + 1,
                     reqs := s.reqs.set i ({ req with result := some tok }) }
          | none =>
            { s with record := some (s.ledgerWrites + 1),
                     ledgerWrites := s.ledgerWrites + 1,
                     reqs :=
                       s.reqs.set i ({ req with result := some (s.ledgerWrites + 1) }) }

/-- Run an interleaving: fire the next step of each scheduled request in
order. -/
def runSchedule (s : DupSystem) : List Nat → DupSystem
  | [] => s
  | i :: rest => runSchedule (dupStep s i) rest

/-- The adversarial parallel schedule: all n requests pass the existence
check before any of them acts. -/
def allCheckThenAct (n : Nat) : List Nat :=
  List.range n ++ List.range n

/-- Invariant of the concurrent duplicate-registration model: an
unchecked request has no result yet, every result equals the token of the
stored record, and the ledger writes issued never exceed the number of
completed requests. -/
structure DupInv (s : DupSystem) : Prop where
  checkedNone : ∀ req ∈ s.reqs, req.checked = false → req.result = none
  resultRecord : ∀ req ∈ s.reqs, ∀ t, req.result = some t → s.record = some t
  writesBound : s.ledgerWrites ≤ s.reqs.countP (fun r => r.result.isSome)

/-- Authenticated user as stored by useAuth (name and email). -/
structure AuthUser where
  name : String
  email : String
deriving Repr, DecidableEq

/-- Morph result payload returned by /api/morph, as typed in Morph.tsx. -/
structure MorphApiResult where
  original_phash : String
  morphed_phash : String
  hamming_distance : Nat
  original_registered : Bool
  original_creator : String
  original_morphed_by : String
  morph_type : String
deriving Repr, DecidableEq

/-- Form fields of the registration request Morph.tsx sends. -/
structure RegisterPayload where
  creator_name : String
  platform : String
  morphed_by : String
  original_phash : String
  creator_email : String
deriving Repr, DecidableEq

/-- Observable outcome of Morph.tsx handleRegister before any response
arrives: prompt for auth, do nothing, set the fingerprint-unchanged error
without any request, or send the registration request. -/
inductive RegisterAction where
  | showAuthPrompt
  | noAction
  | blockFingerprintUnchanged
  | sendRegister (p : RegisterPayload)
deriving Repr, DecidableEq

/-- JavaScript string or-else: the left operand unless it is empty (the
falsy case for strings), as in morphResult.original_creator or user.name. -/
def jsOrElse (a b : String) : String :=
  if a = "" then b else a

/-- Translated from Morph.tsx handleRegister: no user prompts for auth;
missing morph result or preview returns; a morph result with
hamming_distance 0 sets the fingerprint-unchanged error state and issues
no request; otherwise the request is sent with creator_name the original
creator (falling back to the user), morphed_by the current user, and the
original fingerprint as parent link. -/
def handleRegister (user : Option AuthUser) (mr : Option MorphApiResult)
    (preview : Option String) : RegisterAction :=
  match user with
  | none => .showAuthPrompt
  | some u =>
    match mr, preview with
    | some m, some _ =>
      if m.hamming_distance = 0 then .blockFingerprintUnchanged
      else .sendRegister
        { creator_name := jsOrElse m.original_creator u.name
          platform := "GenMark"
          morphed_by := u.name
          original_phash := m.original_phash
          creator_email := u.email }
    | _, _ => .noAction

/-- UI stages of the Morph page, as typed in Morph.tsx. -/
inductive MorphStage where
  | idle
  | uploading
  | verified
  | morphing
  | morphed
  | registering
  | stamped
  | error
deriving Repr, DecidableEq

/-- Translated from Morph.tsx: the disabled condition of the register
button (disabled while registering or morphing, and whenever the morph
left the fingerprint unchanged). -/
def registerButtonDisabled (stage : MorphStage) (m : MorphApiResult) : Bool :=
  decide (stage = .registering) || decide (stage = .morphing) ||
    decide (m.hamming_distance = 0)

/-- Concrete original record used by the witnesses. -/
def wRecA : ContentRecord :=
  { creator_name := "Alice"
    creator_address := ""
    platform := "GenMark"
    timestamp := 1
    asa_id := 1
    flag_count := 0
    original_phash := ""
    morphed_by := "" }

/-- Concrete derivative record used by the witnesses, parented on wRecA's
fingerprint. -/
def wRecB : ContentRecord :=
  { creator_name := "Alice"
    creator_address := ""
    platform := "GenMark"
    timestamp := 2
    asa_id := 2
    flag_count := 0
    original_phash := "a1"
    morphed_by := "Bob" }

/-- Concrete two-entry registry used by the witnesses. -/
def wReg : Registry := [(("b2"), wRecB), (("a1"), wRecA)]

/-- The provenance chain of wRecB's fingerprint in wReg, oldest first. -/
def wChain : List ChainStep :=
  [⟨("a1"), ("Alice"), (""), 1, true⟩, ⟨("b2"), ("Alice"), ("Bob"), 2, false⟩]

/-- Concrete contract state used by the witnesses: the two-entry registry
with no flags filed yet. -/
def wState : ContractState := ⟨wReg, [], 2⟩

/-- Concrete all-zero 8x8 coefficient block (64 equal values), on which
the two binarization rules disagree on every bit. -/
def zeros64 : List Rat := List.replicate 64 0

/-- Structural facts about every successful walk, proved in one induction:
the chain is nonempty, bounded by the fuel, ends at the target's own step,
starts at an original, avoids the visited set, repeats no fingerprint, and
is parent-linked oldest-first. -/
theorem walkUp_ok_props (reg : Registry) :
    ∀ (fuel : Nat) (visited : List String) (ph : String) (c : List ChainStep),
      walkUp reg fuel visited ph = .ok c →
      c ≠ [] ∧ c.length ≤ fuel ∧
      (∃ r, lookupRecord reg ph = some r ∧ c.getLast? = some (mkStep ph r)) ∧
      (∃ s, c.head? = some s ∧ s.is_original = true) ∧
      (∀ s ∈ c, s.phash ∉ visited) ∧
      (c.map (fun s => s.phash)).Nodup ∧
      List.Chain' (ChildOf reg) c := by
  intro fuel
  induction fuel with
  | zero => intro visited ph c h; simp [walkUp] at h
  | succ n ih =>
    intro visited ph c h
    rw [walkUp] at h
    split at h
    · simp at h
    · rename_i hv
      split at h
      · simp at h
      · rename_i r hl
        split at h
        · rename_i hpar
          simp only [Except.ok.injEq] at h
          subst h
          refine ⟨by simp, by simp, ⟨r, hl, by simp⟩,
            ⟨mkStep ph r, rfl, by simp [mkStep, hpar]⟩, ?_, by simp, by simp⟩
          intro s hs
          simp at hs
          subst hs
          simpa [mkStep] using hv
        · rename_i hpar
          split at h
          · simp at h
          · rename_i rest hw
            simp only [Except.ok.injEq] at h
            subst h
            obtain ⟨hne, hlen, ⟨pr, hpr, hlast⟩, ⟨s0, hhead, horig⟩,
              havoid, hnodup, hchain⟩ := ih (ph :: visited) r.original_phash rest hw
            refine ⟨by simp, by simpa using Nat.succ_le_succ hlen,
              ⟨r, hl, by simp⟩, ⟨s0, ?_, horig⟩, ?_, ?_, ?_⟩
            · obtain ⟨hd, tl, rfl⟩ := List.exists_cons_of_ne_nil hne
              simpa using hhead
            · intro s hs
              rcases List.mem_append.mp hs with hs | hs
              · exact fun hmem => (havoid s hs) (List.mem_cons_of_mem _ hmem)
              · simp at hs
                subst hs
                simpa [mkStep] using hv
            · rw [List.map_append]
              refine List.Nodup.append hnodup (by simp) ?_
              intro x hx hy
              simp [mkStep] at hy
              subst hy
              simp only [List.mem_map] at hx
              obtain ⟨s, hs, hsx⟩ := hx
              exact (havoid s hs) (by simp [hsx])
            · rw [List.chain'_append]
              refine ⟨hchain, by simp, ?_⟩
              intro x hx y hy
              simp at hy
              rw [hlast] at hx
              simp at hx
              subst hy
              subst hx
              exact ⟨r, by simpa [mkStep] using hl, by simp [mkStep]⟩

/-- A successful walk does not depend on the fuel once the fuel covers the
chain length. -/
theorem walkUp_mono (reg : Registry) :
    ∀ (fuel : Nat) (visited : List String) (ph : String) (c : List ChainStep),
      walkUp reg fuel visited ph = .ok c →
      ∀ g, c.length ≤ g → walkUp reg g visited ph = .ok c := by
  intro fuel
  induction fuel with
  | zero => intro visited ph c h; simp [walkUp] at h
  | succ n ih =>
    intro visited ph c h g hg
    rw [walkUp] at h
    split at h
    · simp at h
    · rename_i hv
      split at h
      · simp at h
      · rename_i r hl
        split at h
        · rename_i hpar
          simp only [Except.ok.injEq] at h
          subst h
          simp at hg
          obtain ⟨g1, rfl⟩ := Nat.exists_eq_add_of_le hg
          rw [show 1 + g1 = g1 + 1 by omega]
          simp [walkUp, hv, hl, hpar]
        · rename_i hpar
          split at h
          · simp at h
          · rename_i rest hw
            simp only [Except.ok.injEq] at h
            subst h
            have hlen : rest.length + 1 ≤ g := by simpa using hg
            obtain ⟨g1, rfl⟩ := Nat.exists_eq_add_of_le hlen
            have : rest.length ≤ rest.length + g1 := Nat.le_add_right _ _
            have hw1 := ih (ph :: visited) r.original_phash rest hw
              (rest.length + g1) this
            rw [show rest.length + 1 + g1 = (rest.length + g1) + 1 by omega]
            simp [walkUp, hv, hl, hpar, hw1]

/-- Inserting a binding for a fingerprint that the base registry does not
resolve, and enlarging the visited set by that same fingerprint, does not
change a walk that succeeded in the base registry. -/
theorem walkUp_extend (reg : Registry) (ph0 : String) (nr : ContentRecord)
    (hfresh : lookupRecord reg ph0 = none) :
    ∀ (fuel : Nat) (v1 v2 : List String) (q : String) (c : List ChainStep),
      walkUp reg fuel v1 q = .ok c →
      (∀ x, x ∈ v2 ↔ x ∈ v1 ∨ x = ph0) →
      walkUp ((ph0, nr) :: reg) fuel v2 q = .ok c := by
  intro fuel
  induction fuel with
  | zero => intro v1 v2 q c h _; simp [walkUp] at h
  | succ n ih =>
    intro v1 v2 q c h hvv
    rw [walkUp] at h
    split at h
    · simp at h
    · rename_i hv1
      split at h
      · simp at h
      · rename_i r hl
        have hq0 : q ≠ ph0 := by
          intro hq
          rw [hq, hfresh] at hl
          exact absurd hl (by simp)
        have hv2 : q ∉ v2 := by
          intro hmem
          rcases (hvv q).mp hmem with hmem | hmem
          · exact hv1 hmem
          · exact hq0 hmem
        have hph0q : ¬ ph0 = q := fun hq => hq0 hq.symm
        have hl2 : lookupRecord ((ph0, nr) :: reg) q = some r := by
          rw [lookupRecord, if_neg hph0q]
          exact hl
        split at h
        · rename_i hpar
          simp only [Except.ok.injEq] at h
          subst h
          simp [walkUp, hv2, hl2, hpar]
        · rename_i hpar
          split at h
          · simp at h
          · rename_i rest hw
            simp only [Except.ok.injEq] at h
            subst h
            have hvv2 : ∀ x, x ∈ q :: v2 ↔ x ∈ q :: v1 ∨ x = ph0 := by
              intro x
              simp only [List.mem_cons, hvv x]
              tauto
            have hw2 := ih (q :: v1) (q :: v2) r.original_phash rest hw hvv2
            simp [walkUp, hv2, hl2, hpar, hw2]

/-- On a creator-coherent registry, every step of a successful walk carries
the creator_name of the chain's first (original) step. -/
theorem walkUp_const_creator (reg : Registry) (hcoh : creatorCoherent reg) :
    ∀ (fuel : Nat) (visited : List String) (ph : String) (c : List ChainStep),
      walkUp reg fuel visited ph = .ok c →
      ∀ h0, c.head? = some h0 → ∀ s ∈ c, s.creator_name = h0.creator_name := by
  intro fuel
  induction fuel with
  | zero => intro visited ph c h; simp [walkUp] at h
  | succ n ih =>
    intro visited ph c h h0 hh0 s hs
    rw [walkUp] at h
    split at h
    · simp at h
    · rename_i hv
      split at h
      · simp at h
      · rename_i r hl
        split at h
        · rename_i hpar
          simp only [Except.ok.injEq] at h
          subst h
          simp at hh0 hs
          rw [hs, ← hh0]
        · rename_i hpar
          split at h
          · simp at h
          · rename_i rest hw
            simp only [Except.ok.injEq] at h
            subst h
            obtain ⟨hne, _, ⟨pr, hpr, hlast⟩, _, _, _, _⟩ :=
              walkUp_ok_props reg n (ph :: visited) r.original_phash rest hw
            have hh0r : rest.head? = some h0 := by
              obtain ⟨hd, tl, rfl⟩ := List.exists_cons_of_ne_nil hne
              simpa using hh0
            have hrest := ih (ph :: visited) r.original_phash rest hw h0 hh0r
            rcases List.mem_append.mp hs with hsr | hsr
            · exact hrest s hsr
            · simp at hsr
              subst hsr
              have hlastmem : mkStep r.original_phash pr ∈ rest := by
                obtain ⟨hne2, hx⟩ := List.mem_getLast?_eq_getLast
                  (x := mkStep r.original_phash pr) (by rw [Option.mem_def, hlast])
                rw [hx]
                exact List.getLast_mem hne2
              have h1 : r.creator_name = pr.creator_name :=
                hcoh ph r hl hpar pr hpr
              have h2 := hrest (mkStep r.original_phash pr) hlastmem
              simp only [mkStep] at h2 ⊢
              rw [h1, h2]

end GenMark

namespace GenMark

/-- C1: a second registration of already-registered content returns the
existing record as AlreadyRegistered (a success variant), with the same
fingerprint key, creator_name and ownership token (asa_id) as the first
call, leaves the ledger state untouched, and issues zero additional ledger
writes: the orchestrator short-circuits before the write step. -/
theorem c1_second_registration_short_circuits
    (st : ContractState) (writes : Nat) (ph c1 p1 c2 p2 : String)
    (par1 par2 : Option String) (t1 t2 : Nat)
    (hfresh : lookupRecord st.registry ph = none) :
    ∃ r : ContentRecord,
      (registerOrch st writes ph c1 p1 par1 t1).result = .created r ∧
      (registerOrch st writes ph c1 p1 par1 t1).ledgerWrites = writes + 1 ∧
      registerOrch (registerOrch st writes ph c1 p1 par1 t1).state
          (registerOrch st writes ph c1 p1 par1 t1).ledgerWrites
          ph c2 p2 par2 t2 =
        ⟨.alreadyRegistered r,
         (registerOrch st writes ph c1 p1 par1 t1).state,
         (registerOrch st writes ph c1 p1 par1 t1).ledgerWrites⟩ := by
  simp only [registerOrch, hfresh]
  exact ⟨_, rfl, by simp, by simp [lookupRecord]⟩

/-- Witness for C1 at a concrete fresh state. -/
theorem c1_second_registration_short_circuits_witness :
    ∃ r : ContentRecord,
      (registerOrch ⟨[], [], 0⟩ 0 ("a1") ("Alice") ("GenMark") none 5).result
        = .created r ∧
      (registerOrch ⟨[], [], 0⟩ 0 ("a1") ("Alice") ("GenMark") none 5).ledgerWrites
        = 0 + 1 ∧
      registerOrch (registerOrch ⟨[], [], 0⟩ 0 ("a1") ("Alice") ("GenMark") none 5).state
          (registerOrch ⟨[], [], 0⟩ 0 ("a1") ("Alice") ("GenMark") none 5).ledgerWrites
          ("a1") ("Bob") ("GenMark") none 9 =
        ⟨.alreadyRegistered r,
         (registerOrch ⟨[], [], 0⟩ 0 ("a1") ("Alice") ("GenMark") none 5).state,
         (registerOrch ⟨[], [], 0⟩ 0 ("a1") ("Alice") ("GenMark") none 5).ledgerWrites⟩ :=
  c1_second_registration_short_circuits ⟨[], [], 0⟩ 0 ("a1") ("Alice")
    ("GenMark") ("Bob") ("GenMark") none none 5 9 rfl

/-- C4: the Chain Builder walk always terminates: a successful chain is
nonempty, bounded by the 64-hop reference bound, ends at the target
fingerprint's own step, starts at a record with no parent (the original),
repeats no fingerprint, and is parent-linked oldest-first; any failure is
corruptChain; and a record whose parent link points back at itself (the
smallest cycle) fails with corruptChain rather than looping. -/
theorem c4_chain_walk (reg : Registry) (ph : String) :
    (∀ c, buildChain reg ph = .ok c →
      c ≠ [] ∧ c.length ≤ CHAIN_HOP_BOUND ∧
      (∃ s, c.getLast? = some s ∧ s.phash = ph) ∧
      (∃ s, c.head? = some s ∧ s.is_original = true) ∧
      (c.map (fun s => s.phash)).Nodup ∧
      List.Chain' (ChildOf reg) c)
    ∧ (∀ e, buildChain reg ph = .error e → e = .corruptChain)
    ∧ (∀ r, lookupRecord reg ph = some r → r.original_phash = ph →
        ph ≠ "" → buildChain reg ph = .error .corruptChain) := by
  refine ⟨?_, ?_, ?_⟩
  · intro c h
    obtain ⟨hne, hlen, ⟨r, hl, hlast⟩, hhead, _, hnodup, hchain⟩ :=
      walkUp_ok_props reg CHAIN_HOP_BOUND [] ph c h
    exact ⟨hne, hlen, ⟨mkStep ph r, hlast, rfl⟩, hhead, hnodup, hchain⟩
  · intro e _
    cases e
    rfl
  · intro r hl hself hne
    have hinner : walkUp reg 63 [ph] ph = .error .corruptChain := by
      rw [show (63 : Nat) = 62 + 1 from rfl, walkUp]
      simp
    rw [buildChain, show CHAIN_HOP_BOUND = 63 + 1 from rfl, walkUp]
    simp only [List.not_mem_nil, if_false, hl]
    rw [hself, if_neg hne, hinner]

/-- Witness for C4 on the concrete two-entry registry. -/
theorem c4_chain_walk_witness :
    wChain ≠ [] ∧ wChain.length ≤ CHAIN_HOP_BOUND ∧
    (∃ s, wChain.getLast? = some s ∧ s.phash = ("b2")) ∧
    (∃ s, wChain.head? = some s ∧ s.is_original = true) ∧
    (wChain.map (fun s => s.phash)).Nodup ∧
    List.Chain' (ChildOf wReg) wChain :=
  (c4_chain_walk wReg ("b2")).1 wChain rfl

/-- The witness registry is creator-coherent. -/
theorem wReg_coherent : creatorCoherent wReg := by
  intro ph r h hne pr hpr
  by_cases h2 : ph = ("b2")
  · subst h2
    have hb : lookupRecord wReg ("b2") = some wRecB := rfl
    rw [hb] at h
    cases h
    have hparb : wRecB.original_phash = ("a1") := rfl
    rw [hparb] at hpr
    have ha : lookupRecord wReg ("a1") = some wRecA := rfl
    rw [ha] at hpr
    cases hpr
    rfl
  · by_cases h3 : ph = ("a1")
    · subst h3
      have ha : lookupRecord wReg ("a1") = some wRecA := rfl
      rw [ha] at h
      cases h
      exact absurd rfl hne
    · have hnone : lookupRecord wReg ph = none := by
        rw [wReg, lookupRecord, if_neg (fun hh => h2 hh.symm),
          lookupRecord, if_neg (fun hh => h3 hh.symm), lookupRecord]
      rw [hnone] at h
      exact absurd h (by simp)

/-- C5: registering fresh content with an optional parent fingerprint.
If the parent resolves, the new record is written with creator_name equal
to the parent record's creator_name and morphed_by (the contributor) equal
to the claimed creator, and verifying the new fingerprint yields the
parent's chain extended by the new step: length at least 2, ordered
oldest-first, with the original's creator_name carried by every step.  If
the parent does not resolve, registration still succeeds as a fresh
original: the parent link never blocks registration. -/
theorem c5_parent_link_registration (reg : Registry) (flags : FlagBoxes)
    (total writes now : Nat) (ph p claimed platform : String)
    (hfresh : lookupRecord reg ph = none) (hpne : p ≠ "")
    (hcoh : creatorCoherent reg) :
    (∀ pr pch, lookupRecord reg p = some pr → buildChain reg p = .ok pch →
      pch.length < CHAIN_HOP_BOUND →
      ∃ newRec,
        (registerOrch ⟨reg, flags, total⟩ writes ph claimed platform
            (some p) now).result = .created newRec ∧
        newRec.creator_name = pr.creator_name ∧
        newRec.morphed_by = claimed ∧
        newRec.original_phash = p ∧
        buildChain (registerOrch ⟨reg, flags, total⟩ writes ph claimed
            platform (some p) now).state.registry ph
          = .ok (pch ++ [mkStep ph newRec]) ∧
        2 ≤ (pch ++ [mkStep ph newRec]).length ∧
        (∀ h0, (pch ++ [mkStep ph newRec]).head? = some h0 →
          ∀ s ∈ pch ++ [mkStep ph newRec],
            s.creator_name = h0.creator_name))
    ∧ (lookupRecord reg p = none →
      ∃ newRec,
        (registerOrch ⟨reg, flags, total⟩ writes ph claimed platform
            (some p) now).result = .created newRec ∧
        newRec.creator_name = claimed ∧
        newRec.morphed_by = "" ∧
        newRec.original_phash = "" ∧
        buildChain (registerOrch ⟨reg, flags, total⟩ writes ph claimed
            platform (some p) now).state.registry ph
          = .ok [mkStep ph newRec]) := by
  constructor
  · intro pr pch hp hpch hplen
    rw [buildChain] at hpch
    simp only [registerOrch, hfresh, hp]
    refine ⟨_, rfl, rfl, rfl, rfl, ?_, ?_, ?_⟩
    · -- the extended walk in the updated registry
      have hmono := walkUp_mono reg CHAIN_HOP_BOUND [] p pch hpch 63
        (by rw [CHAIN_HOP_BOUND] at hplen; omega)
      have hext := walkUp_extend reg ph
        { creator_name := pr.creator_name
          creator_address := ""
          platform := platform
          timestamp := now
          asa_id := writes + 1
          flag_count := 0
          original_phash := p
          morphed_by := claimed } hfresh 63 [] [ph] p pch hmono
        (by intro x; simp)
      rw [buildChain, show CHAIN_HOP_BOUND = 63 + 1 from rfl, walkUp]
      simp [lookupRecord, hpne, hext]
    · obtain ⟨hne, _, _, _, _, _, _⟩ :=
        walkUp_ok_props reg CHAIN_HOP_BOUND [] p pch hpch
      have : 1 ≤ pch.length := List.length_pos.mpr hne
      simp
      omega
    · intro h0 hh0 s hs
      obtain ⟨hne, _, ⟨pr', hpr', hlast⟩, _, _, _, _⟩ :=
        walkUp_ok_props reg CHAIN_HOP_BOUND [] p pch hpch
      rw [hp] at hpr'
      injection hpr' with hpr'
      subst hpr'
      have hh0p : pch.head? = some h0 := by
        obtain ⟨hd, tl, rfl⟩ := List.exists_cons_of_ne_nil hne
        simpa using hh0
      have hconst := walkUp_const_creator reg hcoh CHAIN_HOP_BOUND [] p pch
        hpch h0 hh0p
      rcases List.mem_append.mp hs with hsp | hsp
      · exact hconst s hsp
      · simp at hsp
        subst hsp
        have hlastmem : mkStep p pr ∈ pch := by
          obtain ⟨hne2, hx⟩ := List.mem_getLast?_eq_getLast
            (x := mkStep p pr) (by rw [Option.mem_def, hlast])
          rw [hx]
          exact List.getLast_mem hne2
        have := hconst (mkStep p pr) hlastmem
        simpa [mkStep] using this
  · intro hp
    simp only [registerOrch, hfresh, hp]
    refine ⟨_, rfl, rfl, rfl, rfl, ?_⟩
    rw [buildChain, show CHAIN_HOP_BOUND = 63 + 1 from rfl, walkUp]
    simp [lookupRecord, mkStep]

/-- Witness for C5, resolved-parent branch, on the concrete registry:
registering new content parented on wRecB's fingerprint. -/
theorem c5_parent_link_registration_witness :
    ∃ newRec,
      (registerOrch ⟨wReg, [], 0⟩ 5 ("c3") ("Carol") ("GenMark")
          (some ("b2")) 9).result = .created newRec ∧
      newRec.creator_name = wRecB.creator_name ∧
      newRec.morphed_by = ("Carol") ∧
      newRec.original_phash = ("b2") ∧
      buildChain (registerOrch ⟨wReg, [], 0⟩ 5 ("c3") ("Carol") ("GenMark")
          (some ("b2")) 9).state.registry ("c3")
        = .ok (wChain ++ [mkStep ("c3") newRec]) ∧
      2 ≤ (wChain ++ [mkStep ("c3") newRec]).length ∧
      (∀ h0, (wChain ++ [mkStep ("c3") newRec]).head? = some h0 →
        ∀ s ∈ wChain ++ [mkStep ("c3") newRec],
          s.creator_name = h0.creator_name) :=
  (c5_parent_link_registration wReg [] 0 5 9 ("c3") ("b2") ("Carol")
    ("GenMark") rfl (by decide) wReg_coherent).1 wRecB wChain rfl rfl
    (by decide)

/-- Updating the record at a key that resolves makes the key resolve to
the updated record. -/
theorem lookupRecord_update_self (reg : Registry) (ph : String)
    (r0 r : ContentRecord) (h : lookupRecord reg ph = some r0) :
    lookupRecord (updateRecord reg ph r) ph = some r := by
  induction reg with
  | nil => simp [lookupRecord] at h
  | cons kv rest ih =>
    obtain ⟨k, v⟩ := kv
    rw [lookupRecord] at h
    rw [updateRecord]
    by_cases hk : k = ph
    · rw [if_pos hk, lookupRecord, if_pos rfl]
    · rw [if_neg hk] at h
      rw [if_neg hk, lookupRecord, if_neg hk]
      exact ih h

/-- The witness contract state has well-formed (empty) flag boxes. -/
theorem wState_flagsWellFormed : flagsWellFormed wState := by
  intro ph idx d h
  simp [wState, lookupFlagBox] at h

/-- C6: appending a flag to a fingerprint that has no ContentRecord fails
with targetNotRegistered and issues zero ledger flag calls; and on a state
whose flag boxes are well formed, reading a flag at an index at or beyond
the target record's flag_count (out of range) returns none (NotFound). -/
theorem c6_flag_error_handling (st : ContractState) (ph desc : String)
    (idx : Nat) :
    (lookupRecord st.registry ph = none →
      appendFlagOrch st ph desc = (.error .targetNotRegistered, 0))
    ∧ (flagsWellFormed st →
      ∀ r, lookupRecord st.registry ph = some r → r.flag_count ≤ idx →
        getFlag st ph idx = none) := by
  constructor
  · intro h
    rw [appendFlagOrch, h]
  · intro hwf r hr hle
    cases hgf : getFlag st ph idx with
    | none => rfl
    | some d =>
      obtain ⟨r', hr', hlt⟩ := hwf ph idx d hgf
      rw [hr] at hr'
      injection hr' with hr'
      subst hr'
      omega

/-- Witness for C6 on the concrete state: flagging an unknown fingerprint
fails without a ledger call, and reading flag 0 of the flagless record
returns none. -/
theorem c6_flag_error_handling_witness :
    appendFlagOrch wState ("zz") ("violation report") =
      (.error .targetNotRegistered, 0) ∧
    getFlag wState ("b2") 0 = none :=
  ⟨(c6_flag_error_handling wState ("zz") ("violation report") 0).1 rfl,
   (c6_flag_error_handling wState ("b2") ("violation report") 0).2
     wState_flagsWellFormed wRecB rfl (by decide)⟩

/-- C7: flag indices are gapless and start at 0: on a record with
flag_count 0, the first append is assigned index 0, the second index 1,
and the record's flag_count becomes 2, with both descriptions readable at
their indices; and in general every successful append assigns exactly the
record's current flag_count as the index (never a client-supplied value)
and atomically increments the stored flag_count by one. -/
theorem c7_gapless_flag_indices (st : ContractState) (ph d1 d2 : String)
    (r : ContentRecord) (hr : lookupRecord st.registry ph = some r)
    (h0 : r.flag_count = 0) :
    ∃ st1 st2,
      flagMisuse st ph d1 = .ok (st1, 0) ∧
      flagMisuse st1 ph d2 = .ok (st2, 1) ∧
      (∃ r2, lookupRecord st2.registry ph = some r2 ∧ r2.flag_count = 2) ∧
      getFlag st2 ph 0 = some d1 ∧ getFlag st2 ph 1 = some d2 ∧
      (∀ st3 ph3 desc st4 idx, flagMisuse st3 ph3 desc = .ok (st4, idx) →
        ∃ r3, lookupRecord st3.registry ph3 = some r3 ∧
          idx = r3.flag_count ∧
          lookupRecord st4.registry ph3 =
            some ({ r3 with flag_count := r3.flag_count + 1 })) := by
  have h1 : flagMisuse st ph d1 =
      .ok ({ st with
              flagBoxes := ((ph, 0), d1) :: st.flagBoxes,
              registry := updateRecord st.registry ph
                ({ r with flag_count := 1 }) }, 0) := by
    rw [flagMisuse, hr]
    simp [h0]
  have hl1 : lookupRecord (updateRecord st.registry ph
      ({ r with flag_count := 1 })) ph = some ({ r with flag_count := 1 }) :=
    lookupRecord_update_self st.registry ph r _ hr
  have h2 : flagMisuse ({ st with
        flagBoxes := ((ph, 0), d1) :: st.flagBoxes,
        registry := updateRecord st.registry ph
          ({ r with flag_count := 1 }) }) ph d2 =
      .ok ({ st with
              flagBoxes := ((ph, 1), d2) :: ((ph, 0), d1) :: st.flagBoxes,
              registry := updateRecord (updateRecord st.registry ph
                ({ r with flag_count := 1 })) ph
                ({ r with flag_count := 2 }) }, 1) := by
    rw [flagMisuse]
    simp only [hl1]
  have hl2 : lookupRecord (updateRecord (updateRecord st.registry ph
      ({ r with flag_count := 1 })) ph ({ r with flag_count := 2 })) ph =
      some ({ r with flag_count := 2 }) :=
    lookupRecord_update_self _ ph ({ r with flag_count := 1 }) _ hl1
  refine ⟨_, _, h1, h2, ⟨({ r with flag_count := 2 }), hl2, rfl⟩, ?_, ?_, ?_⟩
  · rw [getFlag]
    rw [lookupFlagBox, if_neg (by simp), lookupFlagBox, if_pos (by simp)]
  · rw [getFlag, lookupFlagBox, if_pos (by simp)]
  · intro st3 ph3 desc st4 idx hf
    rw [flagMisuse] at hf
    cases hr3 : lookupRecord st3.registry ph3 with
    | none => rw [hr3] at hf; exact absurd hf (by simp)
    | some r3 =>
      rw [hr3] at hf
      simp only [Except.ok.injEq, Prod.mk.injEq] at hf
      obtain ⟨hst4, hidx⟩ := hf
      refine ⟨r3, rfl, hidx.symm, ?_⟩
      rw [← hst4]
      exact lookupRecord_update_self st3.registry ph3 r3 _ hr3

/-- Witness for C7 on the concrete state, flagging wRecB's fingerprint
twice. -/
theorem c7_gapless_flag_indices_witness :
    ∃ st1 st2,
      flagMisuse wState ("b2") ("stolen artwork") = .ok (st1, 0) ∧
      flagMisuse st1 ("b2") ("reposted without credit") = .ok (st2, 1) ∧
      (∃ r2, lookupRecord st2.registry ("b2") = some r2 ∧
        r2.flag_count = 2) ∧
      getFlag st2 ("b2") 0 = some ("stolen artwork") ∧
      getFlag st2 ("b2") 1 = some ("reposted without credit") ∧
      (∀ st3 ph3 desc st4 idx, flagMisuse st3 ph3 desc = .ok (st4, idx) →
        ∃ r3, lookupRecord st3.registry ph3 = some r3 ∧
          idx = r3.flag_count ∧
          lookupRecord st4.registry ph3 =
            some ({ r3 with flag_count := r3.flag_count + 1 })) :=
  c7_gapless_flag_indices wState ("b2") ("stolen artwork")
    ("reposted without credit") wRecB rfl rfl

/-- C8: the classification policy is configurable by threshold, with the
two distinct documented reference thresholds (4 for re-encoded, 10 for
edited): distance 0 is identical content at any threshold, a positive
distance at most the threshold is a near-duplicate, and a distance above
the threshold is unrelated. -/
theorem c8_classification_policy (d : Nat) :
    (∀ t, d = 0 → classify t d = .identical) ∧
    (∀ t, 0 < d → d ≤ t → classify t d = .nearDuplicate) ∧
    (∀ t, t < d → classify t d = .unrelated) ∧
    reencodeThreshold = 4 ∧ editedThreshold = 10 ∧
    reencodeThreshold ≠ editedThreshold := by
  refine ⟨?_, ?_, ?_, rfl, rfl, by decide⟩
  · intro t hd
    subst hd
    rw [classify, if_pos rfl]
  · intro t hpos hle
    rw [classify, if_neg (by omega), if_pos hle]
  · intro t hgt
    rw [classify, if_neg (by omega), if_neg (by omega)]

/-- Witness for C8 at distance 6, below the edited threshold and above
the re-encode threshold. -/
theorem c8_classification_policy_witness :
    classify reencodeThreshold 0 = .identical ∧
    classify editedThreshold 6 = .nearDuplicate ∧
    classify reencodeThreshold 6 = .unrelated :=
  ⟨(c8_classification_policy 0).1 reencodeThreshold rfl,
   (c8_classification_policy 6).2.1 editedThreshold (by decide) (by decide),
   (c8_classification_policy 6).2.2.1 reencodeThreshold (by decide)⟩

/-- The bit count of the low w bits is the number of set bit positions
below w, hence for n below 2 ^ w the full popcount of n. -/
theorem popcountBelow_eq_card (w : Nat) :
    ∀ n, n < 2 ^ w →
      popcountBelow w n =
        ((Finset.range w).filter (fun i => n.testBit i)).card := by
  induction w with
  | zero =>
    intro n h
    have : n = 0 := by omega
    subst this
    rw [popcountBelow]
    simp
  | succ w ih =>
    intro n h
    rw [popcountBelow]
    have h2 : n / 2 < 2 ^ w := by
      rw [pow_succ] at h
      omega
    rw [ih (n / 2) h2]
    rw [Finset.card_filter, Finset.card_filter, Finset.sum_range_succ']
    have hsum : (Finset.range w).sum
        (fun i => if (n / 2).testBit i then 1 else 0) =
        (Finset.range w).sum (fun i => if n.testBit (i + 1) then 1 else 0) :=
      Finset.sum_congr rfl (fun i _ => by rw [Nat.testBit_succ])
    rw [hsum]
    have hzero : (if n.testBit 0 then 1 else 0) = n % 2 := by
      rcases Nat.mod_two_eq_zero_or_one n with hm | hm <;>
        rw [Nat.testBit_zero, hm] <;> simp
    rw [hzero]
    omega

/-- The Hamming distance of two 64-bit values counts exactly the bit
positions below 64 where they differ. -/
theorem hamming_distance_eq_card (a b : Nat) (ha : a < 2 ^ 64)
    (hb : b < 2 ^ 64) :
    hamming_distance a b =
      ((Finset.range 64).filter (fun i => a.testBit i ≠ b.testBit i)).card := by
  rw [hamming_distance,
    popcountBelow_eq_card 64 (a ^^^ b) (Nat.xor_lt_two_pow ha hb)]
  congr 1
  apply Finset.filter_congr
  intro i _
  cases hab : a.testBit i <;> cases hbb : b.testBit i <;>
    simp [Nat.testBit_xor, hab, hbb]

/-- C9: the Similarity Matcher distance of two 64-bit fingerprints lies in
[0, 64], and two fingerprints that differ in exactly k bit positions
report distance k, for every such k (which is necessarily at most 64). -/
theorem c9_hamming_distance_exact (a b k : Nat) (ha : a < 2 ^ 64)
    (hb : b < 2 ^ 64)
    (hk : ((Finset.range 64).filter
      (fun i => a.testBit i ≠ b.testBit i)).card = k) :
    hamming_distance a b = k ∧ hamming_distance a b ≤ 64 ∧ k ≤ 64 := by
  have hcard := hamming_distance_eq_card a b ha hb
  have hle : ((Finset.range 64).filter
      (fun i => a.testBit i ≠ b.testBit i)).card ≤ 64 := by
    calc ((Finset.range 64).filter
        (fun i => a.testBit i ≠ b.testBit i)).card
        ≤ (Finset.range 64).card := Finset.card_filter_le _ _
      _ = 64 := Finset.card_range 64
  exact ⟨by rw [hcard, hk], by rw [hcard]; exact hle, by omega⟩

/-- Witness for C9 at two fingerprints differing in exactly one bit. -/
theorem c9_hamming_distance_exact_witness :
    hamming_distance 0 1 = 1 ∧ hamming_distance 0 1 ≤ 64 ∧ 1 ≤ 64 :=
  c9_hamming_distance_exact 0 1 1 (by decide) (by decide) (by decide)

/-- Inserting 0 into a run of zeros extends the run. -/
theorem insertSorted_zero_replicate (k : Nat) :
    insertSorted 0 (List.replicate k 0) = List.replicate (k + 1) 0 := by
  cases k with
  | zero => rfl
  | succ k =>
    rw [List.replicate_succ, insertSorted, if_pos (le_refl (0 : Rat)),
      List.replicate_succ, List.replicate_succ]

/-- A run of zeros is already sorted. -/
theorem sortRats_replicate_zero (k : Nat) :
    sortRats (List.replicate k 0) = List.replicate k 0 := by
  induction k with
  | zero => rfl
  | succ k ih =>
    rw [List.replicate_succ, sortRats, ih, insertSorted_zero_replicate,
      List.replicate_succ]

/-- The median of the all-zero block is 0. -/
theorem medianOf64_zeros : medianOf64 zeros64 = 0 := by
  rw [medianOf64, zeros64, sortRats_replicate_zero]
  have h31 : (List.replicate 64 (0 : Rat)).getD 31 0 = 0 := rfl
  have h32 : (List.replicate 64 (0 : Rat)).getD 32 0 = 0 := rfl
  rw [h31, h32]
  norm_num

/-- Packing all-zero bits gives 0. -/
theorem packBits_replicate_false (k : Nat) :
    packBits (List.replicate k false) = 0 := by
  induction k with
  | zero => rfl
  | succ k ih =>
    rw [List.replicate_succ, packBits, ih]
    simp

/-- Packing all-one bits gives the all-ones value. -/
theorem packBits_replicate_true (k : Nat) :
    packBits (List.replicate k true) = 2 ^ k - 1 := by
  induction k with
  | zero => rfl
  | succ k ih =>
    rw [List.replicate_succ, packBits, ih, List.length_replicate, pow_succ,
      show (true).toNat = 1 from rfl]
    have h := Nat.one_le_two_pow (n := k)
    omega

/-- C3 counterexample: the claimed binarization (1 when the coefficient is
greater than or equal to the median) disagrees with the code's documented
binarization (1 if above, 0 if below, a strict comparison) on the
all-equal coefficient block: the strict rule packs all zeros, the
at-least rule packs all ones. -/
theorem c3_binarize_counterexample :
    phashFromBlock zeros64 = 0 ∧
    phashFromBlockSpecGE zeros64 = 2 ^ 64 - 1 ∧
    phashFromBlock zeros64 ≠ phashFromBlockSpecGE zeros64 := by
  have h1 : phashFromBlock zeros64 = 0 := by
    rw [phashFromBlock, phashBitsCode, medianOf64_zeros, zeros64,
      List.map_replicate, show decide ((0 : Rat) < 0) = false from rfl,
      packBits_replicate_false]
  have h2 : phashFromBlockSpecGE zeros64 = 2 ^ 64 - 1 := by
    rw [phashFromBlockSpecGE, phashBitsSpecGE, medianOf64_zeros, zeros64,
      List.map_replicate, show decide ((0 : Rat) ≤ 0) = true from rfl,
      packBits_replicate_true]
  refine ⟨h1, h2, ?_⟩
  rw [h1, h2]
  norm_num

/-- Packed bits always fit the bit width given by the list length. -/
theorem packBits_lt (bs : List Bool) : packBits bs < 2 ^ bs.length := by
  induction bs with
  | nil => rw [packBits]; simp
  | cons b t ih =>
    rw [packBits, List.length_cons, pow_succ]
    cases b
    · rw [show (false).toNat = 0 from rfl, Nat.zero_mul, Nat.zero_add]
      omega
    · rw [show (true).toNat = 1 from rfl, Nat.one_mul]
      omega

/-- C3 (amended): for every decodable input the Fingerprint Engine is the
stated pipeline with a strict binarization: the frontend stages (decode,
normalize, resize to 32x32, 2-D frequency transform, lowest-frequency 8x8
block) feed the 64 coefficients into the median / strictly-above-median
binarization / row-major packing stages, the result fits in 64 bits, and
the function is pure and deterministic. -/
theorem c3_fingerprint_pipeline (frontend : List Nat → Option (List Rat))
    (bytes : List Nat) (block : List Rat)
    (hfe : frontend bytes = some block) (hlen : block.length = 64) :
    fingerprintWith frontend bytes =
      some (packBits (block.map (fun v => decide (medianOf64 block < v)))) ∧
    packBits (block.map (fun v => decide (medianOf64 block < v))) < 2 ^ 64 ∧
    fingerprintWith frontend bytes = fingerprintWith frontend bytes := by
  refine ⟨?_, ?_, rfl⟩
  · rw [fingerprintWith, hfe]
    rfl
  · have h := packBits_lt (block.map (fun v => decide (medianOf64 block < v)))
    rwa [List.length_map, hlen] at h

/-- Witness for C3 (amended) at a concrete frontend returning the all-zero
block. -/
theorem c3_fingerprint_pipeline_witness :
    fingerprintWith (fun _ => some zeros64) [] =
      some (packBits (zeros64.map (fun v => decide (medianOf64 zeros64 < v)))) ∧
    packBits (zeros64.map (fun v => decide (medianOf64 zeros64 < v))) < 2 ^ 64 ∧
    fingerprintWith (fun _ => some zeros64) [] =
      fingerprintWith (fun _ => some zeros64) [] :=
  c3_fingerprint_pipeline (fun _ => some zeros64) [] zeros64 rfl (by decide)

/-- Setting a resolvable position trades its old element's count for the
new element's count. -/
theorem countP_set_get? (p : DupRequest → Bool) :
    ∀ (l : List DupRequest) (i : Nat) (x a : DupRequest),
      l.get? i = some x →
      (l.set i a).countP p + (if p x then 1 else 0) =
        l.countP p + (if p a then 1 else 0) := by
  intro l
  induction l with
  | nil => intro i x a h; simp at h
  | cons hd tl ih =>
    intro i x a h
    cases i with
    | zero =>
      simp only [List.get?] at h
      injection h with h
      subst h
      rw [List.set_cons_zero, List.countP_cons, List.countP_cons]
      omega
    | succ i =>
      simp only [List.get?] at h
      rw [List.set_cons_succ, List.countP_cons, List.countP_cons]
      have := ih i x a h
      omega

/-- One step of the concurrency model preserves the invariant. -/
theorem dupStep_inv (s : DupSystem) (i : Nat) (hinv : DupInv s) :
    DupInv (dupStep s i) := by
  obtain ⟨hchk, hres, hcnt⟩ := hinv
  rw [dupStep]
  split
  · exact ⟨hchk, hres, hcnt⟩
  · rename_i req hg
    have hreqmem : req ∈ s.reqs := List.get?_mem hg
    split
    · rename_i hc
      refine ⟨?_, ?_, ?_⟩
      · intro q hq hqc
        rcases List.mem_or_eq_of_mem_set hq with hq | hq
        · exact hchk q hq hqc
        · subst hq
          simp at hqc
      · intro q hq t ht
        rcases List.mem_or_eq_of_mem_set hq with hq | hq
        · exact hres q hq t ht
        · subst hq
          exact hres req hreqmem t ht
      · have h := countP_set_get? (fun r => r.result.isSome) s.reqs i req
          ({ req with checked := true, sawExisting := s.record.isSome }) hg
        simp only at h ⊢
        omega
    · rename_i hc
      split
      · exact ⟨hchk, hres, hcnt⟩
      · rename_i hr
        split
        · rename_i hs
          split
          · rename_i tok hrec
            refine ⟨?_, ?_, ?_⟩
            · intro q hq hqc
              rcases List.mem_or_eq_of_mem_set hq with hq | hq
              · exact hchk q hq hqc
              · subst hq
                simp at hqc
                rw [hqc] at hc
                simp at hc
            · intro q hq t ht
              rcases List.mem_or_eq_of_mem_set hq with hq | hq
              · exact hres q hq t ht
              · subst hq
                simp at ht
                subst ht
                exact hrec
            · have h := countP_set_get? (fun r => r.result.isSome) s.reqs i
                req ({ req with result := some tok }) hg
              simp [hr] at h
              simp only at h ⊢
              omega
          · exact ⟨hchk, hres, hcnt⟩
        · rename_i hs
          split
          · rename_i tok hrec
            refine ⟨?_, ?_, ?_⟩
            · intro q hq hqc
              rcases List.mem_or_eq_of_mem_set hq with hq | hq
              · exact hchk q hq hqc
              · subst hq
                simp at hqc
                rw [hqc] at hc
                simp at hc
            · intro q hq t ht
              rcases List.mem_or_eq_of_mem_set hq with hq | hq
              · exact hres q hq t ht
              · subst hq
                simp at ht
                subst ht
                exact hrec
            · have h := countP_set_get? (fun r => r.result.isSome) s.reqs i
                req ({ req with result := some tok }) hg
              simp [hr] at h
              simp only at h ⊢
              omega
          · rename_i hrec
            refine ⟨?_, ?_, ?_⟩
            · intro q hq hqc
              rcases List.mem_or_eq_of_mem_set hq with hq | hq
              · exact hchk q hq hqc
              · subst hq
                simp at hqc
                rw [hqc] at hc
                simp at hc
            · intro q hq t ht
              rcases List.mem_or_eq_of_mem_set hq with hq | hq
              · have h2 := hres q hq t ht
                rw [hrec] at h2
                exact absurd h2 (by simp)
              · subst hq
                simp at ht
                subst ht
                rfl
            · have h := countP_set_get? (fun r => r.result.isSome) s.reqs i
                req ({ req with result := some (s.ledgerWrites + 1) }) hg
              simp [hr] at h
              simp only at h ⊢
              omega

/-- Running any schedule preserves the invariant. -/
theorem runSchedule_inv (sched : List Nat) :
    ∀ s, DupInv s → DupInv (runSchedule s sched) := by
  induction sched with
  | nil => intro s h; exact h
  | cons i rest ih =>
    intro s h
    rw [runSchedule]
    exact ih (dupStep s i) (dupStep_inv s i h)

/-- A step never changes the number of requests. -/
theorem dupStep_length (s : DupSystem) (i : Nat) :
    (dupStep s i).reqs.length = s.reqs.length := by
  rw [dupStep]
  repeat' split
  all_goals simp

/-- Running a schedule never changes the number of requests. -/
theorem runSchedule_length (sched : List Nat) :
    ∀ s, (runSchedule s sched).reqs.length = s.reqs.length := by
  induction sched with
  | nil => intro s; rfl
  | cons i rest ih =>
    intro s
    rw [runSchedule, ih (dupStep s i), dupStep_length]

/-- C2 counterexample: with ten identical registration requests for the
same unregistered fingerprint interleaved so that all ten existence
checks run before any write, the documented MongoDB-first check-then-act
flow issues ten ledger writes, not exactly one. -/
theorem c2_no_single_flight_counterexample :
    (runSchedule (initDupSystem 10) (allCheckThenAct 10)).ledgerWrites = 10 ∧
    (runSchedule (initDupSystem 10) (allCheckThenAct 10)).ledgerWrites ≠ 1 :=
  ⟨rfl, by decide⟩

/-- C2 (amended): the documented backend has no per-fingerprint mutex or
single-flight guard, so each of the n concurrent duplicate requests may
issue its own ledger write; under every interleaving the write count is
bounded by the number of requests (one write per caller at most), and all
callers that complete converge on the same ownership token, because the
record slot is write-once and every result is read from it. -/
theorem c2_concurrent_duplicates (sched : List Nat) (n : Nat) :
    (runSchedule (initDupSystem n) sched).ledgerWrites ≤ n ∧
    (∀ i j ri rj ti tj,
      (runSchedule (initDupSystem n) sched).reqs.get? i = some ri →
      (runSchedule (initDupSystem n) sched).reqs.get? j = some rj →
      ri.result = some ti → rj.result = some tj → ti = tj) := by
  have hinv0 : DupInv (initDupSystem n) := by
    refine ⟨?_, ?_, ?_⟩
    · intro q hq _
      rw [initDupSystem] at hq
      simp only at hq
      rw [List.eq_of_mem_replicate hq]
    · intro q hq t ht
      rw [initDupSystem] at hq
      simp only at hq
      rw [List.eq_of_mem_replicate hq] at ht
      exact absurd ht (by simp)
    · rw [initDupSystem]
      simp
  obtain ⟨_, hres, hcnt⟩ := runSchedule_inv sched (initDupSystem n) hinv0
  constructor
  · calc (runSchedule (initDupSystem n) sched).ledgerWrites
        ≤ (runSchedule (initDupSystem n) sched).reqs.countP
            (fun r => r.result.isSome) := hcnt
      _ ≤ (runSchedule (initDupSystem n) sched).reqs.length :=
          List.countP_le_length _
      _ = n := by
          rw [runSchedule_length, initDupSystem]
          simp
  · intro i j ri rj ti tj hi hj hti htj
    have h1 := hres ri (List.get?_mem hi) ti hti
    have h2 := hres rj (List.get?_mem hj) tj htj
    rw [h1] at h2
    injection h2

/-- Witness for C2 (amended) on the ten-request adversarial schedule: all
completed callers hold the same token. -/
theorem c2_concurrent_duplicates_witness :
    (runSchedule (initDupSystem 10) (allCheckThenAct 10)).ledgerWrites ≤ 10 ∧
    (1 : Nat) = 1 :=
  ⟨(c2_concurrent_duplicates (allCheckThenAct 10) 10).1,
   (c2_concurrent_duplicates (allCheckThenAct 10) 10).2 0 5
     ⟨true, false, some 1⟩ ⟨true, false, some 1⟩ 1 1 (by decide) (by decide)
     rfl rfl⟩

/-- C10: whenever the morph result's hamming_distance is 0, handleRegister
sets the fingerprint-unchanged error state and issues no registration
request, and the register button is disabled at every stage — so no ledger
write for an unchanged fingerprint can originate from the morph flow. -/
theorem c10_zero_distance_blocks_registration (u : AuthUser)
    (m : MorphApiResult) (preview : String) (stage : MorphStage)
    (h0 : m.hamming_distance = 0) :
    handleRegister (some u) (some m) (some preview) =
      .blockFingerprintUnchanged ∧
    (∀ p, handleRegister (some u) (some m) (some preview) ≠
      .sendRegister p) ∧
    registerButtonDisabled stage m = true := by
  have h : handleRegister (some u) (some m) (some preview) =
      .blockFingerprintUnchanged := by
    simp [handleRegister, h0]
  refine ⟨h, ?_, ?_⟩
  · intro p hp
    rw [h] at hp
    exact absurd hp (by simp)
  · rw [registerButtonDisabled, h0]
    simp

/-- Witness for C10 at a concrete user, morph result with distance 0, and
the morphed stage. -/
theorem c10_zero_distance_blocks_registration_witness :
    handleRegister (some ⟨("Bob"), ("bob@mail.test")⟩)
        (some ⟨("a1"), ("a1"), 0, true, ("Alice"), (""), ("brightness")⟩)
        (some ("preview")) = .blockFingerprintUnchanged ∧
    (∀ p, handleRegister (some ⟨("Bob"), ("bob@mail.test")⟩)
        (some ⟨("a1"), ("a1"), 0, true, ("Alice"), (""), ("brightness")⟩)
        (some ("preview")) ≠ .sendRegister p) ∧
    registerButtonDisabled .morphed
        ⟨("a1"), ("a1"), 0, true, ("Alice"), (""), ("brightness")⟩ = true :=
  c10_zero_distance_blocks_registration ⟨("Bob"), ("bob@mail.test")⟩
    ⟨("a1"), ("a1"), 0, true, ("Alice"), (""), ("brightness")⟩ ("preview")
    .morphed rfl

end GenMark
